import Mathlib

/-!
Shallow embedding of `analyze_results.py` (the HL7 FHIR validator result
analyzer) together with proofs about its suppression-matching and
reconciliation engine.

Conventions used throughout:
* Python dictionaries that are keyed by compiled regular expressions are
  modelled as association lists keyed by the original wildcard string
  (`re.compile` is deterministic and cached per pattern string, so two equal
  wildcard strings yield the same dictionary key, and distinct wildcard
  strings yield distinct compiled patterns).
* Python `int(...)` parsing of line/column strings is modelled with
  `pyInt?`, a parser of optionally signed decimal numerals; the inputs of
  interest are decimal numerals or the placeholder "?".  (Python's `int`
  additionally strips surrounding whitespace and allows underscores between
  digits; neither occurs in validator reports.)
* Mutation of shared rule dictionaries (`ignored_issue["handled"] = True`)
  is modelled by threading the global rule table (`Store`) through every
  operation; the per-resource table `issues_for_resource` holds keys into
  that global table, matching the aliasing of the Python dictionaries.
-/

/-- One reported finding, mirroring the Python `Issue` class.  The synthetic
defect appended by `_checkIgnoredIssue` is a dictionary with exactly the same
five fields, so it is modelled by the same structure.  `expression` is
optional because `finishSelectedId` builds issues whose expression is the
possibly-absent resource id (`self.resource_id`, which may be `None`). -/
structure Issue where
  line : String
  col : String
  severity : String
  text : String
  expression : Option String
deriving DecidableEq

/-- One ignored-issue entry after loading, as built by `IgnoredIssues.load`:
the YAML mapping may or may not carry a `message` and a `reason`, and `load`
adds `handled := False` and `require_occurence` (spelling as in the source). -/
structure Rule where
  message : Option String
  reason : Option String
  handled : Bool
  require_occurence : Bool
deriving DecidableEq

/-- The severity table `issue_levels` of the source (fatal is most severe). -/
def issue_levels : List (String × Nat) :=
  [("fatal", 0), ("error", 1), ("warning", 2), ("information", 3)]

/-! ## The wildcard/regex matcher

`IgnoredIssues._wildcardToRegex` builds the Python regex
`"^" + s.replace(".", "\.").replace("*", ".*?").replace("[", "\[").replace("]", "\]") + "$"`
compiled with `re.MULTILINE`, and every use is through `regex.match(...)`,
i.e. a match that is anchored at position 0 of the candidate and succeeds as
soon as the whole pattern is consumed.  Under `re.MULTILINE`, `^` also
matches just after a newline and `$` also matches just before a newline, and
`.` does not match a newline.  The fragment of Python regexes reachable here
is embedded as a small matcher: literals (possibly backslash-escaped),
`.`, `^`, `$`, and the postfix quantifiers `*`, `+`, `?`, each optionally
followed by a laziness marker `?` (greedy and lazy quantifiers accept the
same set of strings, and only acceptance is observable in the source).
Constructs outside this fragment (groups, alternation, classes, repetition
braces, backslash followed by a letter or digit) make the embedded parser
reject the pattern. -/

/-- A regex atom that consumes exactly one character. -/
inductive CAtom where
  | lit (c : Char)
  | anyNoNL
deriving DecidableEq

/-- A regex element: a single atom, an anchor, or a quantified atom. -/
inductive Atom where
  | one (a : CAtom)
  | bol
  | eol
  | star (a : CAtom)
  | plus (a : CAtom)
  | opt (a : CAtom)
deriving DecidableEq

/-- Try to consume one character with atom `a`; returns the consumed
character and the rest. -/
def consume1 (a : CAtom) : List Char → Option (Char × List Char)
  | [] => none
  | d :: s =>
    match a with
    | .lit c => if d = c then some (d, s) else none
    | .anyNoNL => if d = '\n' then none else some (d, s)

/-- Iterate atom `a` zero or more times, succeeding if the continuation `k`
succeeds after any number of iterations (the language of `a*k`; greediness
is irrelevant for acceptance).  `prev` is the character just before the
current position (for multiline `^`). -/
def starMtch (k : Option Char → List Char → Bool) (a : CAtom) :
    Option Char → List Char → Bool
  | prev, [] => k prev []
  | prev, d :: s2 =>
    k prev (d :: s2) ||
      (match a with
       | .lit c => if d = c then starMtch k a (some d) s2 else false
       | .anyNoNL => if d = '\n' then false else starMtch k a (some d) s2)

/-- Acceptance of an atom list at the current position of the candidate,
Python `re.match` style: the match is anchored where it starts and succeeds
once the pattern is exhausted (trailing input is allowed; the generated
patterns end in `$`, which is the `re.MULTILINE` end-of-line anchor). -/
def mtch : List Atom → Option Char → List Char → Bool
  | [], _, _ => true
  | .one a :: rest, _, s =>
    (match consume1 a s with
     | some (d, s2) => mtch rest (some d) s2
     | none => false)
  | .bol :: rest, prev, s =>
    if prev = none ∨ prev = some '\n' then mtch rest prev s else false
  | .eol :: rest, prev, s =>
    if s = [] ∨ s.head? = some '\n' then mtch rest prev s else false
  | .star a :: rest, prev, s => starMtch (mtch rest) a prev s
  | .plus a :: rest, _, s =>
    (match consume1 a s with
     | some (d, s2) => starMtch (mtch rest) a (some d) s2
     | none => false)
  | .opt a :: rest, prev, s =>
    mtch rest prev s ||
      (match consume1 a s with
       | some (d, s2) => mtch rest (some d) s2
       | none => false)

/-- Regex metacharacters that the embedded fragment does not support as bare
literals (in Python they would open groups, alternations, classes or
repetitions, or raise a "nothing to repeat" error). -/
def unsupportedMeta (c : Char) : Bool :=
  c = '*' || c = '+' || c = '?' || c = '(' || c = ')' || c = '|' ||
  c = '{' || c = '}' || c = '[' || c = ']'

/-- The pending atom flushed into the output when the next element begins
(a quantifier instead consumes it). -/
def flushP : Option CAtom → List Atom
  | none => []
  | some a => [Atom.one a]

/-- Parse a Python regex source string (restricted to the fragment described
above) into a list of atoms.  The parser keeps the most recent unquantified
atom pending so that a following `*`, `+` or `?` (each with an optional lazy
marker `?`) can consume it; a quantifier with nothing pending is Python's
"nothing to repeat" error, and a quantifier directly after a quantified atom
is Python's "multiple repeat" error — both are rejected, as are the
unsupported constructs. -/
def parseRegexAux : Option CAtom → List Char → Option (List Atom)
  | pending, [] => some (flushP pending)
  | pending, '*' :: '?' :: r =>
    (match pending with
     | some a => (parseRegexAux none r).map (Atom.star a :: ·)
     | none => none)
  | pending, '*' :: r =>
    (match pending with
     | some a => (parseRegexAux none r).map (Atom.star a :: ·)
     | none => none)
  | pending, '+' :: '?' :: r =>
    (match pending with
     | some a => (parseRegexAux none r).map (Atom.plus a :: ·)
     | none => none)
  | pending, '+' :: r =>
    (match pending with
     | some a => (parseRegexAux none r).map (Atom.plus a :: ·)
     | none => none)
  | pending, '?' :: '?' :: r =>
    (match pending with
     | some a => (parseRegexAux none r).map (Atom.opt a :: ·)
     | none => none)
  | pending, '?' :: r =>
    (match pending with
     | some a => (parseRegexAux none r).map (Atom.opt a :: ·)
     | none => none)
  | pending, '^' :: r =>
    (parseRegexAux none r).map (fun l => flushP pending ++ Atom.bol :: l)
  | pending, '$' :: r =>
    (parseRegexAux none r).map (fun l => flushP pending ++ Atom.eol :: l)
  | pending, '\\' :: c :: r =>
    if c.isAlphanum then none
    else (parseRegexAux (some (CAtom.lit c)) r).map (fun l => flushP pending ++ l)
  | _, ['\\'] => none
  | pending, '.' :: r =>
    (parseRegexAux (some CAtom.anyNoNL) r).map (fun l => flushP pending ++ l)
  | pending, c :: r =>
    if unsupportedMeta c then none
    else (parseRegexAux (some (CAtom.lit c)) r).map (fun l => flushP pending ++ l)

/-- Parse a regex source with nothing pending. -/
def parseRegex (l : List Char) : Option (List Atom) :=
  parseRegexAux none l

/-- The per-character effect of the chained `str.replace` calls in
`_wildcardToRegex`.  The four replacements are applied left to right and no
replacement output contains a character replaced by a later step, so the
chain is equal to this single character-wise map applied once. -/
def escWildcardChar (c : Char) : List Char :=
  if c = '.' then ['\\', '.']
  else if c = '*' then ['.', '*', '?']
  else if c = '[' then ['\\', '[']
  else if c = ']' then ['\\', ']']
  else [c]

/-- The regex source built by `IgnoredIssues._wildcardToRegex`, as a
character list: `"^" + escaped body + "$"`. -/
def wildcardToRegex (s : String) : List Char :=
  '^' :: (s.data.flatMap escWildcardChar ++ ['$'])

/-- Compile a wildcard pattern as the source does (`_wildcardToRegex` plus
`re.compile`); `none` when the resulting regex uses a construct outside the
embedded fragment. -/
def compileWildcard (p : String) : Option (List Atom) :=
  parseRegex (wildcardToRegex p)

/-- Matching of a wildcard pattern against a candidate string, as performed
by every `regex.match(...)` call in the source (with `re.MULTILINE`). -/
def wildcardMatch (p cand : String) : Bool :=
  match compileWildcard p with
  | some atoms => mtch atoms none cand.data
  | none => false

/-- Modelled from the spec: the matcher the specification describes, used
only for comparison against the code.  `*` matches any run of characters
(including newlines), every other character matches only itself, and the
pattern is anchored to the full candidate string. -/
def specStarRun (k : List Char → Bool) : List Char → Bool
  | [] => k []
  | d :: s2 => k (d :: s2) || specStarRun k s2

/-- Modelled from the spec: see `specStarRun`. -/
def specWildcardMatchL : List Char → List Char → Bool
  | [], s => s.isEmpty
  | c :: p, s =>
    if c = '*' then specStarRun (specWildcardMatchL p) s
    else
      match s with
      | [] => false
      | d :: s2 => if d = c then specWildcardMatchL p s2 else false

/-- Modelled from the spec: string-level wrapper of `specWildcardMatchL`. -/
def specWildcardMatch (p cand : String) : Bool :=
  specWildcardMatchL p.data cand.data

/-- The corrected semantics of the code's wildcard matcher on patterns built
only from ordinary characters and `*`: anchored at the start, `*` ranges
over newline-free runs, and the end of the pattern must coincide with the
end of the candidate or fall just before a newline (multiline `$`). -/
def plainStarRun (k : List Char → Bool) : List Char → Bool
  | [] => k []
  | d :: s2 => k (d :: s2) || (if d = '\n' then false else plainStarRun k s2)

/-- See `plainStarRun`; the end-of-pattern case is the multiline `$`. -/
def plainWildMatch : List Char → List Char → Bool
  | [], s =>
    (match s with
     | [] => true
     | d :: _ => d == '\n')
  | c :: p, s =>
    if c = '*' then plainStarRun (plainWildMatch p) s
    else
      match s with
      | [] => false
      | d :: s2 => if d = c then plainWildMatch p s2 else false

/-! ## Element spans and the two span mappers

`ElementId` stores one identified element's inclusive start/end (line,
column) pair together with its id.  The XML mapper (`XMLElementIdMapper`)
pushes every start tag on a stack and, at the matching end tag, emits an
`ElementId` when the element carried an `id` attribute.  The JSON mapper
(`JSONElementIdMapper`) intercepts the decoder: every completed object whose
member list has an `id` key emits an `ElementId` from the object's opening
position to its closing position.  In both cases elements are emitted in
the order their end events occur, so inner elements come first.  Both are
embedded as the same stack machine over an event stream; the Python field
`end` is spelled `stop` here because `end` is reserved in Lean. -/

/-- Positions are (line, column) pairs; `ElementId.__init__` coerces both
coordinates with `int(...)`. -/
structure ElementId where
  start : Int × Int
  stop : Int × Int
  id : String
deriving DecidableEq

/-- Strict document order on (line, column) positions. -/
def posLt (a b : Int × Int) : Prop :=
  a.1 < b.1 ∨ (a.1 = b.1 ∧ a.2 < b.2)

instance (a b : Int × Int) : Decidable (posLt a b) := by
  unfold posLt; infer_instance

/-- Reflexive document order on positions. -/
def posLe (a b : Int × Int) : Prop :=
  posLt a b ∨ a = b

instance (a b : Int × Int) : Decidable (posLe a b) := by
  unfold posLe; infer_instance

/-- `ElementId.has` for already-parsed integer coordinates: the condition of
the source, both span boundaries inclusive. -/
def containsPt (e : ElementId) (line col : Int) : Prop :=
  (line > e.start.1 ∨ (line = e.start.1 ∧ col ≥ e.start.2)) ∧
  (line < e.stop.1 ∨ (line = e.stop.1 ∧ col ≤ e.stop.2))

instance (e : ElementId) (line col : Int) : Decidable (containsPt e line col) := by
  unfold containsPt; infer_instance

/-- A run of decimal digits as a number; `none` when empty or when any
character is not a digit. -/
def parseNatL (cs : List Char) : Option Nat :=
  if cs.isEmpty then none
  else
    cs.foldl
      (fun acc c =>
        acc.bind (fun n => if c.isDigit then some (n * 10 + (c.toNat - 48)) else none))
      (some 0)

/-- Python `int(...)` on the strings that occur in validator reports: an
optionally signed decimal numeral; everything else (in particular the
placeholder "?") raises `ValueError`, modelled as `none`. -/
def pyInt? (s : String) : Option Int :=
  match s.data with
  | '-' :: cs => (parseNatL cs).map (fun n => -(n : Int))
  | '+' :: cs => (parseNatL cs).map (fun n => (n : Int))
  | cs => (parseNatL cs).map (fun n => (n : Int))

/-- `ElementId.has`: parse the line and column (`int(...)`; a failure, e.g.
the placeholder "?", yields no match), then test span containment; the id is
returned on success, mirroring the Python `return self.id` / `return False`. -/
def ElementId.has (e : ElementId) (line col : String) : Option String :=
  match pyInt? line, pyInt? col with
  | some l, some c => if containsPt e l c then some e.id else none
  | _, _ => none

/-- An event of the generic span-mapper machine: an element/object opens at
a position (with the id attribute, if the format provides it at opening
time), or closes at a position (with the id member, if the format provides
it at closing time). -/
inductive SpanEvent where
  | sopen (pos : Int × Int) (oid : Option String)
  | sclose (pos : Int × Int) (cid : Option String)
deriving DecidableEq

/-- The position at which an event occurs. -/
def SpanEvent.pos : SpanEvent → Int × Int
  | .sopen p _ => p
  | .sclose p _ => p

/-- One step of the span-mapper stack machine: opening pushes the position
(and any id known at opening); closing pops the matching opening and emits
an `ElementId` when an id is known from either side.  Popping an empty stack
is the malformed-document case (Python would raise). -/
def spanStep (st : List ((Int × Int) × Option String) × List ElementId)
    (e : SpanEvent) :
    Option (List ((Int × Int) × Option String) × List ElementId) :=
  match e with
  | .sopen p oid => some ((p, oid) :: st.1, st.2)
  | .sclose p cid =>
    match st.1 with
    | [] => none
    | (q, oid) :: rest =>
      some (rest, st.2 ++ (match oid <|> cid with
                           | some i => [⟨q, p, i⟩]
                           | none => []))

/-- Run the span-mapper machine over an event stream. -/
def runSpansAux (st : List ((Int × Int) × Option String) × List ElementId) :
    List SpanEvent →
    Option (List ((Int × Int) × Option String) × List ElementId)
  | [] => some st
  | e :: evs =>
    match spanStep st e with
    | some st2 => runSpansAux st2 evs
    | none => none

/-- The element list produced by a span-mapper run. -/
def runSpans (evs : List SpanEvent) : Option (List ElementId) :=
  (runSpansAux ([], []) evs).map (·.2)

/-- An expat event as seen by `XMLElementIdMapper`: a start tag with its
attribute list at the parser's current position, or an end tag. -/
inductive XmlEvent where
  | startEl (pos : Int × Int) (attrs : List (String × String))
  | endEl (pos : Int × Int)
deriving DecidableEq

/-- The position of an XML event. -/
def XmlEvent.pos : XmlEvent → Int × Int
  | .startEl p _ => p
  | .endEl p => p

/-- `start_handler` records the id attribute if present; `end_handler`
carries no id. -/
def xmlToSpanEvent : XmlEvent → SpanEvent
  | .startEl p attrs => .sopen p (attrs.lookup "id")
  | .endEl p => .sclose p none

/-- `XMLElementIdMapper.parse` over its event stream: the stack of
`start_handler` and the emission of `end_handler`. -/
def XMLElementIdMapper.parse (evs : List XmlEvent) : Option (List ElementId) :=
  runSpans (evs.map xmlToSpanEvent)

/-- A JSON-decoder object event as seen by `JSONElementIdMapper`: an object
opens (no members known yet) or closes with its decoded member list (member
values are modelled as strings; only the `id` member is ever read). -/
inductive JsonEvent where
  | objOpen (pos : Int × Int)
  | objClose (pos : Int × Int) (members : List (String × String))
deriving DecidableEq

/-- The position of a JSON event. -/
def JsonEvent.pos : JsonEvent → Int × Int
  | .objOpen p => p
  | .objClose p _ => p

/-- `interceptingJSONObject` emits a span when the completed object has an
`id` member; the id becomes known at closing time. -/
def jsonToSpanEvent : JsonEvent → SpanEvent
  | .objOpen p => .sopen p none
  | .objClose p members => .sclose p (members.lookup "id")

/-- `JSONElementIdMapper.parse` over its object event stream. -/
def JSONElementIdMapper.parse (evs : List JsonEvent) : Option (List ElementId) :=
  runSpans (evs.map jsonToSpanEvent)

/-- The resolution loop at the head of `IgnoredIssues.hasForId`: walk the
element list and return the id of the first span containing the point
(`break` on the first non-`False` result). -/
def firstContaining (spans : List ElementId) (line col : String) : Option String :=
  match spans with
  | [] => none
  | e :: rest =>
    match e.has line col with
    | some i => some i
    | none => firstContaining rest line col


/-- Boolean prefix test on character lists; Python `s.startswith(p)` is
exactly `prefixOfL p.data s.data`. -/
def prefixOfL : List Char → List Char → Bool
  | [], _ => true
  | _ :: _, [] => false
  | a :: as2, b :: bs => a = b && prefixOfL as2 bs

/-- Boolean infix test on character lists. -/
def infixOfL (needle : List Char) : List Char → Bool
  | [] => prefixOfL needle []
  | b :: bs => prefixOfL needle (b :: bs) || infixOfL needle bs

/-- Does the issue mention the string `s` anywhere in its text or its
expression? -/
def mentions (i : Issue) (s : String) : Bool :=
  infixOfL s.data i.text.data ||
    (match i.expression with
     | some e => infixOfL s.data e.data
     | none => false)

/-! ## The ignored-issues rule table

`IgnoredIssues.ignored_issues` is a dictionary from a resource regex to a
dictionary from a location regex to a list of rule entries; the regexes are
compiled from wildcard strings, and the structure is modelled as nested
association lists keyed by the wildcard strings.  Python 3.7+ dictionaries
preserve insertion order and `update`/assignment keeps the position of an
existing key, which `setA` reproduces. -/

/-- The global two-level rule table (`self.ignored_issues`, with `None` and
the empty dictionary both modelled as `[]`). -/
def Store := List (String × List (String × List Rule))

instance : DecidableEq Store := by unfold Store; infer_instance

/-- Ordered-dictionary assignment: replace the value of an existing key in
place, otherwise append the new key at the end. -/
def setA {α : Type} (l : List (String × α)) (k : String) (v : α) :
    List (String × α) :=
  if l.any (fun e => e.1 = k) then
    l.map (fun e => if e.1 = k then (k, v) else e)
  else l ++ [(k, v)]

/-- The rule list stored under a resource pattern and a location pattern
(empty when either key is absent). -/
def getRules (s : Store) (res loc : String) : List Rule :=
  (((s.lookup res).getD []).lookup loc).getD []

/-- Apply `f` to the rule list stored under `(res, loc)`; other entries are
untouched.  This models in-place mutation of the shared Python rule lists
(the per-resource table aliases them). -/
def updateRules (s : Store) (res loc : String) (f : List Rule → List Rule) :
    Store :=
  s.map (fun e =>
    if e.1 = res then
      (e.1, e.2.map (fun e2 => if e2.1 = loc then (e2.1, f e2.2) else e2))
    else e)

/-- One raw ignored-issue entry of a YAML document (its optional `message`
and `reason` keys; everything else in the mapping is ignored by the code). -/
structure RawRule where
  message : Option String
  reason : Option String
deriving DecidableEq

/-- `load` adds `handled = False` and the document's `require_occurence`
flag to each raw entry. -/
def mkRule (req : Bool) (r : RawRule) : Rule :=
  ⟨r.message, r.reason, false, req⟩

/-- One YAML document of an ignored-issues file: the optional "issues
should occur" key and, per resource pattern, the optional "ignored issues"
mapping from location pattern to raw entries. -/
structure YamlDoc where
  issues_should_occur : Option Bool
  resources : List (String × Option (List (String × List RawRule)))
deriving DecidableEq

/-- The `require_occurence` flag of a document: `True` unless the document
carries a falsy "issues should occur" value. -/
def YamlDoc.require (d : YamlDoc) : Bool :=
  match d.issues_should_occur with
  | some b => b
  | none => true

/-- Merge one resource entry's "ignored issues" paths into that resource's
accumulated location table, appending the new rules after any existing ones
under the same location pattern (the inner loop of `IgnoredIssues.load`). -/
def mergePaths (ifr : List (String × List Rule)) (req : Bool)
    (paths : List (String × List RawRule)) : List (String × List Rule) :=
  paths.foldl
    (fun acc p =>
      setA acc p.1 (((acc.lookup p.1).getD []) ++ p.2.map (mkRule req)))
    ifr

/-- Process one resource entry of a document (one iteration of the outer
loop of `IgnoredIssues.load`): entries without an "ignored issues" key are
skipped; a resource pattern containing `*` in a document that requires
occurrence is the fatal wildcard misuse (`sys.exit(1)`), modelled as
`none`; otherwise the entry is merged into the table. -/
def loadRes (req : Bool) (acc : Store)
    (e : String × Option (List (String × List RawRule))) : Option Store :=
  match e.2 with
  | none => some acc
  | some paths =>
    if req ∧ e.1.data.contains '*' then none
    else some (setA acc e.1 (mergePaths ((acc.lookup e.1).getD []) req paths))

/-- Load one YAML document into the table (`IgnoredIssues.load`, one
iteration over `yaml.safe_load_all`). -/
def loadDoc (s : Store) (d : YamlDoc) : Option Store :=
  d.resources.foldlM (loadRes d.require) s

/-- Load a sequence of documents (several `---` sections of one file, or
several files loaded one after the other). -/
def loadDocs (s : Store) (ds : List YamlDoc) : Option Store :=
  ds.foldlM loadDoc s

/-- The rules a path list contributes under a location pattern, in
document order. -/
def pathRules (req : Bool) (paths : List (String × List RawRule))
    (loc : String) : List Rule :=
  paths.flatMap (fun p => if p.1 = loc then p.2.map (mkRule req) else [])

/-- The rules a resource-entry list contributes under `(res, loc)`, in
document order. -/
def resRules (req : Bool)
    (rs : List (String × Option (List (String × List RawRule))))
    (res loc : String) : List Rule :=
  rs.flatMap (fun e =>
    if e.1 = res then
      match e.2 with
      | none => []
      | some paths => pathRules req paths loc
    else [])

/-- The rules a single document contributes under `(res, loc)`, in document
order. -/
def docRules (d : YamlDoc) (res loc : String) : List Rule :=
  resRules d.require d.resources res loc

/-- The matching state of one resource's outcome: the global table (shared
and mutated across outcomes), the selected resource id, the active table
`issues_for_resource` (modelled as the list of (location pattern, owning
resource pattern) keys into the global table, in dictionary order), the
element spans, and the synthetic issue list `self.issues`. -/
structure IIState where
  store : Store
  resource_id : Option String
  active : List (String × String)
  element_ids : List ElementId
  issues : List Issue
deriving DecidableEq

/-- Merge one matching resource pattern's location keys into the active
table (`self.issues_for_resource.update(...)`): an existing location key
keeps its position but now aliases the later resource's rule list; new keys
are appended. -/
def updateActive (active : List (String × String)) (res : String)
    (locs : List String) : List (String × String) :=
  locs.foldl (fun acc loc => setA acc loc res) active

/-- `IgnoredIssues.selectResourceId`: reset the per-resource state, then
activate every resource pattern matching the resource id (if any) or the
file path.  `spans` stands for the result of the lazy span-mapper parse of
the resource file; the Python code assigns it (re-parsing idempotently)
each time a pattern matches, so the element list is `spans` exactly when at
least one pattern matched. -/
def selectResourceId (store : Store) (resource_id : Option String)
    (file_path : String) (spans : List ElementId) : IIState :=
  let step := fun (acc : List (String × String) × List ElementId)
                  (e : String × List (String × List Rule)) =>
    let matchResult :=
      match resource_id with
      | some rid => wildcardMatch e.1 rid || wildcardMatch e.1 file_path
      | none => wildcardMatch e.1 file_path
    if matchResult then (updateActive acc.1 e.1 (e.2.map (·.1)), spans)
    else acc
  let (active, element_ids) := store.foldl step ([], [])
  ⟨store, resource_id, active, element_ids, []⟩

/-- Does a rule's `message` prefix-match the reported message text
(`"message" in ignored_issue and message.startswith(...)`)? -/
def ruleMatchesMsg (message : String) (r : Rule) : Bool :=
  match r.message with
  | some m => prefixOfL m.data message.data
  | none => false

/-- The synthetic defect of `_checkIgnoredIssue` for a matching rule that
carries no `reason`. -/
def unjustIssue (location : String) : Issue :=
  ⟨"?", "?", "fatal", "Issue ignored without providing a reason", some location⟩

/-- One iteration of the outer loop of `_checkIgnoredIssue`, for the active
entry `p = (location pattern, owning resource pattern)`: when the pattern
matches the location, every rule in the aliased list whose message
prefix-matches is marked handled in the global table, a missing `reason`
appends a synthetic fatal defect, and the result becomes `True`. -/
def checkStep (message location : String) (acc : Bool × IIState)
    (p : String × String) : Bool × IIState :=
  if wildcardMatch p.1 location then
    let rules := getRules acc.2.store p.2 p.1
    let newDefects := rules.filterMap (fun r =>
      if ruleMatchesMsg message r ∧ r.reason = none then
        some (unjustIssue location)
      else none)
    let anyMatch := rules.any (ruleMatchesMsg message)
    let store2 := updateRules acc.2.store p.2 p.1 (fun rs =>
      rs.map (fun r => if ruleMatchesMsg message r then { r with handled := true } else r))
    (acc.1 || anyMatch, { acc.2 with store := store2, issues := acc.2.issues ++ newDefects })
  else acc

/-- `IgnoredIssues._checkIgnoredIssue`: fold `checkStep` over the active
table. -/
def checkIgnoredIssue (st : IIState) (message location : String) :
    Bool × IIState :=
  st.active.foldl (checkStep message location) (false, st)

/-- `IgnoredIssues.hasForExpression`. -/
def hasForExpression (st : IIState) (message expression : String) :
    Bool × IIState :=
  checkIgnoredIssue st message expression

/-- `IgnoredIssues.hasForId`: resolve the point to the first containing
element's id and re-run the message check against that id.  An empty id
string is falsy in Python (`if element_id:`), so it yields no match. -/
def hasForId (st : IIState) (message line col : String) : Bool × IIState :=
  match firstContaining st.element_ids line col with
  | some i => if i = "" then (false, st) else checkIgnoredIssue st message i
  | none => (false, st)

/-- The synthetic stale-suppression defect of `finishSelectedId`: a fatal
issue at unknown coordinates whose expression is the resource id. -/
def staleIssue (resource_id : Option String) : Issue :=
  ⟨"?", "?", "fatal", "An ignored issue was provided, but the issue didn't occur",
   resource_id⟩

/-- `IgnoredIssues.finishSelectedId`: for every active rule that was never
handled but was required to occur, append a stale-suppression defect; the
whole accumulated synthetic issue list is returned. -/
def finishSelectedId (st : IIState) : List Issue × IIState :=
  let defects := st.active.flatMap (fun p =>
    (getRules st.store p.2 p.1).filterMap (fun r =>
      if r.handled = false ∧ r.require_occurence = true then
        some (staleIssue st.resource_id)
      else none))
  let newIssues := st.issues ++ defects
  (newIssues, { st with issues := newIssues })

/-! ## ResourceIssues and the driver loop -/

/-- The per-resource container `ResourceIssues`: the shared `IgnoredIssues`
state and the kept-issue list `self.issues`. -/
structure RIState where
  ii : IIState
  kept : List Issue
deriving DecidableEq

/-- `ResourceIssues.addIssue`: unknown severities raise (`none`); otherwise
the issue is kept unless the expression check or, failing that, the id
check suppresses it (Python's short-circuiting `or`). -/
def addIssue (st : RIState) (line col severity text expression : String) :
    Option RIState :=
  if (issue_levels.lookup severity).isSome then
    let r1 := hasForExpression st.ii text expression
    if r1.1 then some ⟨r1.2, st.kept⟩
    else
      let r2 := hasForId r1.2 text line col
      if r2.1 then some ⟨r2.2, st.kept⟩
      else some ⟨r2.2, st.kept ++ [⟨line, col, severity, text, some expression⟩]⟩
  else none

/-- Modelled from the spec: the per-issue algorithm as the specification
words it, for comparison with `addIssue` — the structural-path match is
attempted only when the location expression is non-empty. -/
def addIssue_specOrder (st : RIState) (line col severity text expression : String) :
    Option RIState :=
  if (issue_levels.lookup severity).isSome then
    let r1 :=
      if expression ≠ "" then hasForExpression st.ii text expression
      else (false, st.ii)
    if r1.1 then some ⟨r1.2, st.kept⟩
    else
      let r2 := hasForId r1.2 text line col
      if r2.1 then some ⟨r2.2, st.kept⟩
      else some ⟨r2.2, st.kept ++ [⟨line, col, severity, text, some expression⟩]⟩
  else none

/-- `ResourceIssues.finish`: append all synthetic defects (including the
stale-suppression ones added by `finishSelectedId`) to the kept list. -/
def ResourceIssues.finish (st : RIState) : RIState :=
  let r := finishSelectedId st.ii
  ⟨r.2, st.kept ++ r.1⟩

/-- One issue as extracted from an `OperationOutcome` by the driver loop. -/
structure RawIssue where
  line : String
  col : String
  severity : String
  text : String
  expression : String
deriving DecidableEq

/-- The success sentinel test of the driver: a single-issue outcome whose
issue has severity `information` and text exactly "All OK" is skipped
without ever reaching `addIssue`. -/
def isAllOkSentinel (outcome : List RawIssue) (i : RawIssue) : Bool :=
  i.severity = "information" && i.text = "All OK" && outcome.length = 1

/-- The driver's per-outcome issue loop: every non-sentinel issue is fed to
`addIssue`. -/
def processOutcome (st : RIState) (outcome : List RawIssue) : Option RIState :=
  outcome.foldlM
    (fun acc i =>
      if isAllOkSentinel outcome i then some acc
      else addIssue acc i.line i.col i.severity i.text i.expression)
    st

/-- The run-level failure test of the driver: some issue's severity level is
at or below (at least as severe as) the fail level.  A severity missing from
`issue_levels` would raise a `KeyError` in Python, which also fails the run,
so it is mapped to the most severe level. -/
def runFailed (allIssues : List Issue) (fail_level : Nat) : Bool :=
  allIssues.any (fun i => ((issue_levels.lookup i.severity).getD 0) ≤ fail_level)

/-- The option parser admits exactly these values for `--fail-at` and
`--verbosity-level`. -/
def thresholdChoices : List String := ["error", "warning", "information"]

/-- The startup threshold check (lines 326-329): the run is rejected with a
configuration error exactly when the fail level is numerically greater than
the verbosity level. -/
def thresholdsRejected (fail_at verbosity_level : String) : Bool :=
  ((issue_levels.lookup fail_at).getD 0) > ((issue_levels.lookup verbosity_level).getD 0)

/-- The severity level of a known severity name. -/
def levelOf (s : String) : Nat := (issue_levels.lookup s).getD 0

/-! ## Predicates used in the theorem statements -/

/-- The relation between an earlier-emitted and a later-emitted span of a
span-mapper run: the earlier one is strictly nested inside the later one,
or lies entirely before it. -/
def nestRel (a b : ElementId) : Prop :=
  (posLt b.start a.start ∧ posLt a.stop b.stop) ∨ posLt a.stop b.start

instance (a b : ElementId) : Decidable (nestRel a b) := by
  unfold nestRel; infer_instance

/-- A span list as produced by the mappers: pairwise nested-or-disjoint,
with inner spans listed first. -/
def WellNested (l : List ElementId) : Prop :=
  List.Pairwise nestRel l

instance (l : List ElementId) : Decidable (WellNested l) := by
  unfold WellNested; infer_instance

/-- The atom a plain-or-star wildcard character compiles to. -/
def wildAtom (c : Char) : Atom :=
  if c = '*' then Atom.star CAtom.anyNoNL else Atom.one (CAtom.lit c)

/-- Rules equal up to the mutable `handled` flag. -/
def ruleEqMod (r r' : Rule) : Prop :=
  r.message = r'.message ∧ r.reason = r'.reason ∧
    r.require_occurence = r'.require_occurence

/-- Stores with the same shape and the same rules up to `handled`. -/
def storeEqMod (s s' : Store) : Prop :=
  ∀ res loc, List.Forall₂ ruleEqMod (getRules s res loc) (getRules s' res loc)

/-! ## Concrete scenario data used by the closed instance theorems -/

/-- An XML event stream with a nested identified element. -/
def c4XmlEvs : List XmlEvent :=
  [.startEl (1, 0) [("id", "outer")], .startEl (2, 2) [("id", "inner")],
   .endEl (3, 2), .endEl (4, 0)]

/-- A JSON object event stream with a nested identified object. -/
def c4JsonEvs : List JsonEvent :=
  [.objOpen (1, 2), .objOpen (2, 4), .objClose (3, 4) [("id", "innerJ")],
   .objClose (4, 1) [("id", "outerJ")]]

/-- The spans the XML mapper produces for `c4XmlEvs`. -/
def c4XmlIds : List ElementId :=
  [⟨(2, 2), (3, 2), "inner"⟩, ⟨(1, 0), (4, 0), "outer"⟩]

/-- The spans the JSON mapper produces for `c4JsonEvs`. -/
def c4JsonIds : List ElementId :=
  [⟨(2, 4), (3, 4), "innerJ"⟩, ⟨(1, 2), (4, 1), "outerJ"⟩]

/-- A rule table with one required-occurrence rule for resource "p1". -/
def c3Store : Store :=
  [("p1", [("Patient.code",
    [⟨some "Invalid code", some "known data issue", false, true⟩])])]

/-- A rule table whose one rule has no reason. -/
def c2Store : Store :=
  [("p1", [("Patient.code", [⟨some "Invalid code", none, false, true⟩])])]

/-- A first rule document. -/
def c9d1 : YamlDoc := ⟨none, [("p1", some [("Patient.code", [⟨some "m1", some "r1"⟩])])]⟩

/-- A second rule document reusing the same resource and location keys. -/
def c9d2 : YamlDoc :=
  ⟨some false, [("p1", some [("Patient.code", [⟨some "m2", none⟩])])]⟩

/-- The table after loading `c9d1`. -/
def c9s1 : Store := [("p1", [("Patient.code", [⟨some "m1", some "r1", false, true⟩])])]

/-- The table after loading `c9d1` then `c9d2`. -/
def c9s2 : Store :=
  [("p1", [("Patient.code",
    [⟨some "m1", some "r1", false, true⟩, ⟨some "m2", none, false, false⟩])])]

/-- A rule table whose location pattern `*` matches the empty path. -/
def c7Store : Store := [("p1", [("*", [⟨some "M", some "why", false, false⟩])])]

/-- The matching state after the empty-expression path check on `c7Store`. -/
def c7AfterII : IIState :=
  (hasForExpression (selectResourceId c7Store (some "p1") "f.xml" []) "M text" "").2

/-- A rule table whose single rule is already handled. -/
def c3HandledStore : Store :=
  [("p1", [("Patient.code", [⟨some "Invalid code", some "why", true, true⟩])])]

/-! ## Theorems -/
theorem posLt_trans {a b c : Int × Int} (h1 : posLt a b) (h2 : posLt b c) :
    posLt a c := by
  unfold posLt at h1 h2 ⊢; omega

theorem hasEq (e : ElementId) {line col : String} {l c : Int}
    (hl : pyInt? line = some l) (hc : pyInt? col = some c) :
    e.has line col = if containsPt e l c then some e.id else none := by
  unfold ElementId.has; rw [hl, hc]

theorem firstContaining_innermost (spans : List ElementId) (line col : String)
    (l c : Int) (hl : pyInt? line = some l) (hc : pyInt? col = some c)
    (hw : WellNested spans) (i : String)
    (hres : firstContaining spans line col = some i) :
    ∃ e ∈ spans, e.id = i ∧ containsPt e l c ∧
      ∀ e' ∈ spans, containsPt e' l c → posLe e'.start e.start := by
  induction spans with
  | nil => simp [firstContaining] at hres
  | cons a rest ih =>
    rw [firstContaining, hasEq a hl hc] at hres
    rcases List.pairwise_cons.mp hw with ⟨hrel, hw'⟩
    by_cases hca : containsPt a l c
    · rw [if_pos hca] at hres
      refine ⟨a, List.mem_cons_self a rest, by injection hres, hca, ?_⟩
      intro e' he' hce'
      rcases List.mem_cons.mp he' with rfl | he'
      · exact Or.inr rfl
      · rcases hrel e' he' with ⟨h1, _⟩ | h2
        · exact Or.inl h1
        · exfalso
          unfold containsPt at hca hce'
          unfold posLt at h2
          omega
    · rw [if_neg hca] at hres
      rcases ih hw' hres with ⟨e, he, hei, hce, hall⟩
      refine ⟨e, List.mem_cons_of_mem a he, hei, hce, ?_⟩
      intro e' he' hce'
      rcases List.mem_cons.mp he' with rfl | he'
      · exact absurd hce' hca
      · exact hall e' he' hce'

theorem runSpansAux_wellNested :
    ∀ (evs : List SpanEvent) (stk : List ((Int × Int) × Option String))
      (out : List ElementId)
      (res : List ((Int × Int) × Option String) × List ElementId),
    List.Pairwise posLt (evs.map SpanEvent.pos) →
    List.Pairwise (fun x y => posLt y.1 x.1) stk →
    (∀ x ∈ stk, ∀ e ∈ evs, posLt x.1 e.pos) →
    (∀ o ∈ out, ∀ e ∈ evs, posLt o.start e.pos ∧ posLt o.stop e.pos) →
    WellNested out →
    (∀ o ∈ out, ∀ x ∈ stk, posLt x.1 o.start ∨ posLt o.stop x.1) →
    runSpansAux (stk, out) evs = some res →
    WellNested res.2 := by
  intro evs
  induction evs with
  | nil =>
    intro stk out res _ _ _ _ hnest _ hrun
    have : (stk, out) = res := by
      simpa [runSpansAux] using hrun
    rw [← this]
    exact hnest
  | cons e rest ih =>
    intro stk out res hpw hstk hstkF houtF hnest hcross hrun
    have hpw' : List.Pairwise posLt (rest.map SpanEvent.pos) :=
      (List.pairwise_cons.mp (by simpa using hpw)).2
    have hhead : ∀ e' ∈ rest, posLt e.pos e'.pos := by
      intro e' he'
      exact (List.pairwise_cons.mp (by simpa using hpw)).1 e'.pos
        (List.mem_map_of_mem SpanEvent.pos he')
    cases e with
    | sopen p oid =>
      rw [runSpansAux, spanStep] at hrun
      refine ih ((p, oid) :: stk) out res hpw' ?_ ?_ ?_ hnest ?_ hrun
      · refine List.pairwise_cons.mpr ⟨?_, hstk⟩
        intro x hx
        exact hstkF x hx (.sopen p oid) (List.mem_cons_self _ _)
      · intro x hx e' he'
        rcases List.mem_cons.mp hx with rfl | hx
        · exact hhead e' he'
        · exact hstkF x hx e' (List.mem_cons_of_mem _ he')
      · intro o ho e' he'
        exact houtF o ho e' (List.mem_cons_of_mem _ he')
      · intro o ho x hx
        rcases List.mem_cons.mp hx with rfl | hx
        · exact Or.inr (houtF o ho (.sopen p oid) (List.mem_cons_self _ _)).2
        · exact hcross o ho x hx
    | sclose p cid =>
      rw [runSpansAux, spanStep] at hrun
      cases stk with
      | nil => simp at hrun
      | cons top stk' =>
        obtain ⟨q, oid⟩ := top
        simp only at hrun
        set emitted : List ElementId :=
          (match oid <|> cid with
           | some i => [⟨q, p, i⟩]
           | none => []) with hemit
        have hsub : ∀ o ∈ emitted, o.start = q ∧ o.stop = p := by
          intro o ho
          rcases h : oid <|> cid with _ | i <;> rw [hemit] at ho <;> simp [h] at ho
          rcases ho with rfl
          exact ⟨rfl, rfl⟩
        have htop : ∀ e' ∈ rest, posLt q e'.pos := by
          intro e' he'
          exact hstkF (q, oid) (List.mem_cons_self _ _) e' (List.mem_cons_of_mem _ he')
        refine ih stk' (out ++ emitted) res hpw'
          (List.pairwise_cons.mp hstk).2 ?_ ?_ ?_ ?_ hrun
        · intro x hx e' he'
          exact hstkF x (List.mem_cons_of_mem _ hx) e' (List.mem_cons_of_mem _ he')
        · intro o ho e' he'
          rcases List.mem_append.mp ho with ho | ho
          · exact houtF o ho e' (List.mem_cons_of_mem _ he')
          · rcases hsub o ho with ⟨h1, h2⟩
            rw [h1, h2]
            exact ⟨htop e' he', hhead e' he'⟩
        · refine List.pairwise_append.mpr ⟨hnest, ?_, ?_⟩
          · rcases h : oid <|> cid with _ | i <;> rw [hemit] <;> simp [h, List.Pairwise]
          · intro o ho o' ho'
            rcases hsub o' ho' with ⟨h1, h2⟩
            rcases hcross o ho (q, oid) (List.mem_cons_self _ _) with h3 | h3
            · refine Or.inl ⟨?_, ?_⟩
              · rw [h1]; exact h3
              · rw [h2]
                exact (houtF o ho (.sclose p cid) (List.mem_cons_self _ _)).2
            · refine Or.inr ?_
              rw [h1]; exact h3
        · intro o ho x hx
          rcases List.mem_append.mp ho with ho | ho
          · exact hcross o ho x (List.mem_cons_of_mem _ hx)
          · rcases hsub o ho with ⟨h1, _⟩
            refine Or.inl ?_
            rw [h1]
            exact (List.pairwise_cons.mp hstk).1 x hx

theorem runSpans_wellNested (evs : List SpanEvent)
    (h : List.Pairwise posLt (evs.map SpanEvent.pos)) (ids : List ElementId)
    (hr : runSpans evs = some ids) : WellNested ids := by
  unfold runSpans at hr
  rcases hres : runSpansAux ([], []) evs with _ | res
  · rw [hres] at hr; exact absurd hr (by simp)
  · rw [hres] at hr
    simp only [Option.map] at hr
    have hr2 : res.2 = ids := by
      cases hr; rfl
    have := runSpansAux_wellNested evs [] [] res h (by simp) (by simp) (by simp)
      (by simp [WellNested]) (by simp) hres
    rw [← hr2]
    exact this

theorem xmlToSpanEvent_pos (e : XmlEvent) : (xmlToSpanEvent e).pos = e.pos := by
  cases e <;> rfl

theorem jsonToSpanEvent_pos (e : JsonEvent) : (jsonToSpanEvent e).pos = e.pos := by
  cases e <;> rfl

theorem xmlParse_wellNested (evs : List XmlEvent)
    (h : List.Pairwise posLt (evs.map XmlEvent.pos)) (ids : List ElementId)
    (hr : XMLElementIdMapper.parse evs = some ids) : WellNested ids := by
  refine runSpans_wellNested (evs.map xmlToSpanEvent) ?_ ids hr
  rw [List.map_map]
  have : SpanEvent.pos ∘ xmlToSpanEvent = XmlEvent.pos := by
    funext e; exact xmlToSpanEvent_pos e
  rw [this]
  exact h

theorem jsonParse_wellNested (evs : List JsonEvent)
    (h : List.Pairwise posLt (evs.map JsonEvent.pos)) (ids : List ElementId)
    (hr : JSONElementIdMapper.parse evs = some ids) : WellNested ids := by
  refine runSpans_wellNested (evs.map jsonToSpanEvent) ?_ ids hr
  rw [List.map_map]
  have : SpanEvent.pos ∘ jsonToSpanEvent = JsonEvent.pos := by
    funext e; exact jsonToSpanEvent_pos e
  rw [this]
  exact h

/-- C4: when several mapped element spans contain a reported (line, column) point, the resolution loop returns the identifier of the most recently opened (innermost) containing element — the containing span with the largest start position — for both the XML and the JSON span mappers, provided the event positions are strictly increasing. -/
theorem c4_innermost_resolution (xevs : List XmlEvent) (jevs : List JsonEvent)
    (xids jids : List ElementId) (line col : String) (l c : Int)
    (hxinc : List.Pairwise posLt (xevs.map XmlEvent.pos))
    (hxp : XMLElementIdMapper.parse xevs = some xids)
    (hjinc : List.Pairwise posLt (jevs.map JsonEvent.pos))
    (hjp : JSONElementIdMapper.parse jevs = some jids)
    (hl : pyInt? line = some l) (hc : pyInt? col = some c) :
    (∀ i, firstContaining xids line col = some i →
      ∃ e ∈ xids, e.id = i ∧ containsPt e l c ∧
        ∀ e' ∈ xids, containsPt e' l c → posLe e'.start e.start) ∧
    (∀ i, firstContaining jids line col = some i →
      ∃ e ∈ jids, e.id = i ∧ containsPt e l c ∧
        ∀ e' ∈ jids, containsPt e' l c → posLe e'.start e.start) := by
  constructor
  · intro i hi
    exact firstContaining_innermost xids line col l c hl hc
      (xmlParse_wellNested xevs hxinc xids hxp) i hi
  · intro i hi
    exact firstContaining_innermost jids line col l c hl hc
      (jsonParse_wellNested jevs hjinc jids hjp) i hi

/-- Witness for C4 at a concrete nested XML and JSON event stream and the point (2, 6). -/
theorem c4_innermost_resolution_witness :
    List.Pairwise posLt (c4XmlEvs.map XmlEvent.pos) ∧
    XMLElementIdMapper.parse c4XmlEvs = some c4XmlIds ∧
    List.Pairwise posLt (c4JsonEvs.map JsonEvent.pos) ∧
    JSONElementIdMapper.parse c4JsonEvs = some c4JsonIds ∧
    ((∀ i, firstContaining c4XmlIds "2" "6" = some i →
      ∃ e ∈ c4XmlIds, e.id = i ∧ containsPt e 2 6 ∧
        ∀ e' ∈ c4XmlIds, containsPt e' 2 6 → posLe e'.start e.start) ∧
    (∀ i, firstContaining c4JsonIds "2" "6" = some i →
      ∃ e ∈ c4JsonIds, e.id = i ∧ containsPt e 2 6 ∧
        ∀ e' ∈ c4JsonIds, containsPt e' 2 6 → posLe e'.start e.start)) :=
  ⟨by decide, by decide, by decide, by decide,
   c4_innermost_resolution c4XmlEvs c4JsonEvs c4XmlIds c4JsonIds "2" "6" 2 6
     (by decide) (by decide) (by decide) (by decide) (by decide) (by decide)⟩

theorem has_none_left (e : ElementId) (line col : String)
    (h : pyInt? line = none) : e.has line col = none := by
  unfold ElementId.has
  rw [h]

theorem has_none_right (e : ElementId) (line col : String)
    (h : pyInt? col = none) : e.has line col = none := by
  unfold ElementId.has
  rw [h]
  rcases pyInt? line <;> rfl

theorem firstContaining_none_left (spans : List ElementId) (line col : String)
    (h : pyInt? line = none) : firstContaining spans line col = none := by
  induction spans with
  | nil => rfl
  | cons a rest ih => rw [firstContaining, has_none_left a line col h, ih]

theorem firstContaining_none_right (spans : List ElementId) (line col : String)
    (h : pyInt? col = none) : firstContaining spans line col = none := by
  induction spans with
  | nil => rfl
  | cons a rest ih => rw [firstContaining, has_none_right a line col h, ih]

/-- C5: if the reported line or column does not parse as an integer (for example the placeholder "?"), resolution yields none; otherwise `ElementId.has` returns the id exactly when the point is at or after the span start and at or before the span end, both boundaries inclusive; for a span over lines 10-20, the point (15, 3) resolves to the id and (9, 99) does not. -/
theorem c5_span_containment (e : ElementId) (spans : List ElementId)
    (line col : String) (l c : Int)
    (hl : pyInt? line = some l) (hc : pyInt? col = some c) :
    (e.has line col = some e.id ↔
      (l > e.start.1 ∨ (l = e.start.1 ∧ c ≥ e.start.2)) ∧
      (l < e.stop.1 ∨ (l = e.stop.1 ∧ c ≤ e.stop.2))) ∧
    (∀ ln cl : String, pyInt? ln = none ∨ pyInt? cl = none →
      firstContaining spans ln cl = none) ∧
    (ElementId.mk (10, 5) (20, 10) "ex").has "15" "3" = some "ex" ∧
    (ElementId.mk (10, 5) (20, 10) "ex").has "9" "99" = none ∧
    firstContaining [ElementId.mk (10, 5) (20, 10) "ex"] "?" "3" = none := by
  refine ⟨?_, ?_, by decide, by decide, by decide⟩
  · rw [hasEq e hl hc]
    unfold containsPt
    constructor
    · intro h
      by_cases hcp : (l > e.start.1 ∨ (l = e.start.1 ∧ c ≥ e.start.2)) ∧
          (l < e.stop.1 ∨ (l = e.stop.1 ∧ c ≤ e.stop.2))
      · exact hcp
      · rw [if_neg hcp] at h; exact absurd h (by simp)
    · intro h
      rw [if_pos h]
  · intro ln cl h
    rcases h with h | h
    · exact firstContaining_none_left spans ln cl h
    · exact firstContaining_none_right spans ln cl h

/-- Witness for C5 at a concrete span and point. -/
theorem c5_span_containment_witness :
    pyInt? "15" = some 15 ∧ pyInt? "3" = some 3 ∧
    (((ElementId.mk (10, 5) (20, 10) "ex").has "15" "3" =
        some (ElementId.mk (10, 5) (20, 10) "ex").id ↔
      ((15 : Int) > 10 ∨ ((15 : Int) = 10 ∧ (3 : Int) ≥ 5)) ∧
      ((15 : Int) < 20 ∨ ((15 : Int) = 20 ∧ (3 : Int) ≤ 10))) ∧
    (∀ ln cl : String, pyInt? ln = none ∨ pyInt? cl = none →
      firstContaining [] ln cl = none) ∧
    (ElementId.mk (10, 5) (20, 10) "ex").has "15" "3" = some "ex" ∧
    (ElementId.mk (10, 5) (20, 10) "ex").has "9" "99" = none ∧
    firstContaining [ElementId.mk (10, 5) (20, 10) "ex"] "?" "3" = none) :=
  ⟨by decide, by decide,
   c5_span_containment (ElementId.mk (10, 5) (20, 10) "ex") [] "15" "3" 15 3 (by decide) (by decide)⟩

/-- C10: an outcome consisting of exactly one issue with severity "information" and text "All OK" is skipped before `addIssue` is ever called: processing it leaves the whole state (rule table, handled flags, kept list) unchanged, so it contributes nothing to the kept-issue list or the verdict. -/
theorem c10_all_ok_sentinel (st : RIState) (i : RawIssue)
    (hsev : i.severity = "information") (htext : i.text = "All OK") :
    processOutcome st [i] = some st := by
  unfold processOutcome
  simp [List.foldlM, isAllOkSentinel, hsev, htext]

/-- Witness for C10 at a concrete state and sentinel issue. -/
theorem c10_all_ok_sentinel_witness :
    processOutcome ⟨⟨[], none, [], [], []⟩, []⟩
      [⟨"?", "?", "information", "All OK", ""⟩] =
      some ⟨⟨[], none, [], [], []⟩, []⟩ :=
  c10_all_ok_sentinel ⟨⟨[], none, [], [], []⟩, []⟩ ⟨"?", "?", "information", "All OK", ""⟩
    rfl rfl

/-- C8 amended: the configuration fail-at = error, verbosity = warning is accepted; the startup check rejects a configuration exactly when some severity would fail the run while being hidden by the verbosity threshold, which happens for fail-at = warning, verbosity = error but not for fail-at = error, verbosity = warning. -/
theorem c8_threshold_amended (fa v : String)
    (hfa : fa ∈ thresholdChoices) (hv : v ∈ thresholdChoices) :
    (thresholdsRejected fa v = true ↔
      ∃ s ∈ issue_levels.map Prod.fst, levelOf s ≤ levelOf fa ∧ levelOf v < levelOf s) ∧
    thresholdsRejected "warning" "error" = true ∧
    thresholdsRejected "error" "warning" = false := by
  refine ⟨?_, by decide, by decide⟩
  fin_cases hfa <;> fin_cases hv <;> decide

/-- C8 counterexample: the configuration fail threshold = error, verbosity threshold = warning is not rejected by the startup check, contrary to the claim. -/
theorem c8_threshold_counterexample :
    thresholdsRejected "error" "warning" = false ∧
    ("error" ∈ thresholdChoices ∧ "warning" ∈ thresholdChoices) := by
  refine ⟨by decide, by decide, by decide⟩

theorem lookup_map_ite {β : Type} (s : List (String × β)) (r k : String)
    (h : β → β) :
    (s.map (fun e => if e.1 = r then (e.1, h e.2) else e)).lookup k =
      if k = r then (s.lookup k).map h else s.lookup k := by
  induction s with
  | nil => by_cases hk : k = r <;> simp [hk]
  | cons e t ih =>
    obtain ⟨a, b⟩ := e
    simp only [List.map_cons]
    by_cases hea : a = r
    · subst hea
      rw [if_pos rfl]
      by_cases hk : k = a
      · subst hk
        simp [List.lookup]
      · have hba : (k == a) = false := by simp [hk]
        simp only [List.lookup, hba, ih]
    · rw [if_neg hea]
      by_cases hk : k = a
      · subst hk
        have : ¬k = r := fun hc => hea hc
        simp [List.lookup, this]
      · have hba : (k == a) = false := by simp [hk]
        simp only [List.lookup, hba, ih]

theorem lookup_updateRules (s : Store) (r l : String)
    (f : List Rule → List Rule) (res : String) :
    (updateRules s r l f).lookup res =
      if res = r then
        (s.lookup res).map
          (fun v => v.map (fun e2 => if e2.1 = l then (e2.1, f e2.2) else e2))
      else s.lookup res := by
  unfold updateRules
  exact lookup_map_ite s r res
    (fun v => v.map (fun e2 => if e2.1 = l then (e2.1, f e2.2) else e2))

theorem getRules_updateRules_cases (s : Store) (r l : String)
    (f : List Rule → List Rule) (res loc : String) :
    getRules (updateRules s r l f) res loc = getRules s res loc ∨
    getRules (updateRules s r l f) res loc = f (getRules s res loc) := by
  unfold getRules
  rw [lookup_updateRules s r l f res]
  by_cases hres : res = r
  · rw [if_pos hres]
    rcases hl : s.lookup res with _ | v
    · simp
    · simp only [Option.map_some', Option.getD_some]
      rw [lookup_map_ite v l loc f]
      by_cases hloc : loc = l
      · rw [if_pos hloc]
        rcases hv : v.lookup loc with _ | rs
        · simp
        · simp
      · rw [if_neg hloc]
        exact Or.inl rfl
  · rw [if_neg hres]
    exact Or.inl rfl

theorem forall₂_ruleEqMod_refl (l : List Rule) : List.Forall₂ ruleEqMod l l := by
  induction l with
  | nil => exact List.Forall₂.nil
  | cons a t ih => exact List.Forall₂.cons ⟨rfl, rfl, rfl⟩ ih

theorem storeEqMod_refl (s : Store) : storeEqMod s s := by
  intro res loc
  exact forall₂_ruleEqMod_refl _

theorem forall₂_mem_left {as bs : List Rule} (h : List.Forall₂ ruleEqMod as bs)
    {a : Rule} (ha : a ∈ as) : ∃ b ∈ bs, ruleEqMod a b := by
  induction h with
  | nil => cases ha
  | cons hr _ ih =>
    rcases List.mem_cons.mp ha with rfl | ha2
    · exact ⟨_, List.mem_cons_self _ _, hr⟩
    · rcases ih ha2 with ⟨b, hb, hR⟩
      exact ⟨b, List.mem_cons_of_mem _ hb, hR⟩

theorem ruleMatchesMsg_eqMod (m : String) {r r' : Rule} (h : ruleEqMod r r') :
    ruleMatchesMsg m r' = ruleMatchesMsg m r := by
  unfold ruleMatchesMsg
  rw [h.1]

theorem forall₂_ruleEqMod_map_mark (m : String) {as bs : List Rule}
    (h : List.Forall₂ ruleEqMod as bs) :
    List.Forall₂ ruleEqMod as
      (bs.map (fun r =>
        if ruleMatchesMsg m r then { r with handled := true } else r)) := by
  induction h with
  | nil => exact List.Forall₂.nil
  | cons hr _ ih =>
    refine List.Forall₂.cons ?_ ih
    rcases hr with ⟨h1, h2, h3⟩
    dsimp only
    split <;> exact ⟨h1, h2, h3⟩

theorem storeEqMod_checkStep (m loc : String) (s0 : Store)
    (acc : Bool × IIState) (p : String × String)
    (h : storeEqMod s0 acc.2.store) :
    storeEqMod s0 (checkStep m loc acc p).2.store := by
  unfold checkStep
  split
  · intro res loc'
    rcases getRules_updateRules_cases acc.2.store p.2 p.1
        (fun rs => rs.map (fun r =>
          if ruleMatchesMsg m r then { r with handled := true } else r)) res loc'
      with hcase | hcase
    · dsimp only
      rw [hcase]
      exact h res loc'
    · dsimp only
      rw [hcase]
      exact forall₂_ruleEqMod_map_mark m (h res loc')
  · exact h

theorem checkStep_issues (m loc : String) (acc : Bool × IIState)
    (p : String × String) :
    ∃ d, (checkStep m loc acc p).2.issues = acc.2.issues ++ d := by
  unfold checkStep
  split
  · exact ⟨_, rfl⟩
  · exact ⟨[], by simp⟩

theorem checkStep_true (m loc : String) (acc : Bool × IIState)
    (p : String × String) (h : acc.1 = true) :
    (checkStep m loc acc p).1 = true := by
  unfold checkStep
  split
  · dsimp only; rw [h, Bool.true_or]
  · exact h

theorem checkFold_issues (m loc : String) (l : List (String × String)) :
    ∀ acc : Bool × IIState,
    ∃ d, (l.foldl (checkStep m loc) acc).2.issues = acc.2.issues ++ d := by
  induction l with
  | nil => intro acc; exact ⟨[], by simp⟩
  | cons p t ih =>
    intro acc
    rcases ih (checkStep m loc acc p) with ⟨d, hd⟩
    rcases checkStep_issues m loc acc p with ⟨d0, h0⟩
    rw [List.foldl_cons]
    exact ⟨d0 ++ d, by rw [hd, h0, List.append_assoc]⟩

theorem checkFold_true (m loc : String) (l : List (String × String)) :
    ∀ acc : Bool × IIState, acc.1 = true →
    (l.foldl (checkStep m loc) acc).1 = true := by
  induction l with
  | nil => intro acc h; exact h
  | cons p t ih =>
    intro acc h
    rw [List.foldl_cons]
    exact ih _ (checkStep_true m loc acc p h)

theorem checkFold_store (m loc : String) (s0 : Store)
    (l : List (String × String)) :
    ∀ acc : Bool × IIState, storeEqMod s0 acc.2.store →
    storeEqMod s0 ((l.foldl (checkStep m loc) acc).2.store) := by
  induction l with
  | nil => intro acc h; exact h
  | cons p t ih =>
    intro acc h
    rw [List.foldl_cons]
    exact ih _ (storeEqMod_checkStep m loc s0 acc p h)

theorem checkFold_hit (m loc : String) (s0 : Store)
    (l : List (String × String)) :
    ∀ acc : Bool × IIState, storeEqMod s0 acc.2.store →
    ∀ p ∈ l, wildcardMatch p.1 loc = true →
    (∃ r ∈ getRules s0 p.2 p.1, ruleMatchesMsg m r = true ∧ r.reason = none) →
    (l.foldl (checkStep m loc) acc).1 = true ∧
    unjustIssue loc ∈ (l.foldl (checkStep m loc) acc).2.issues := by
  induction l with
  | nil => intro acc _ p hp; cases hp
  | cons q t ih =>
    intro acc hmod p hp hw hr
    rw [List.foldl_cons]
    rcases List.mem_cons.mp hp with rfl | hp2
    · rcases hr with ⟨r, hrmem, hrmsg, hrnone⟩
      rcases forall₂_mem_left (hmod p.2 p.1) hrmem with ⟨r', hr'mem, hr'eq⟩
      have hr'msg : ruleMatchesMsg m r' = true := by
        rw [ruleMatchesMsg_eqMod m hr'eq]; exact hrmsg
      have hr'none : r'.reason = none := by rw [← hr'eq.2.1]; exact hrnone
      have hstep1 : (checkStep m loc acc p).1 = true := by
        unfold checkStep
        rw [if_pos hw]
        dsimp only
        have : (getRules acc.2.store p.2 p.1).any (ruleMatchesMsg m) = true :=
          List.any_eq_true.mpr ⟨r', hr'mem, hr'msg⟩
        rw [this, Bool.or_true]
      have hstepm : unjustIssue loc ∈ (checkStep m loc acc p).2.issues := by
        unfold checkStep
        rw [if_pos hw]
        dsimp only
        refine List.mem_append.mpr (Or.inr ?_)
        refine List.mem_filterMap.mpr ⟨r', hr'mem, ?_⟩
        rw [if_pos ⟨hr'msg, hr'none⟩]
      rcases checkFold_issues m loc t (checkStep m loc acc p) with ⟨d, hd⟩
      refine ⟨checkFold_true m loc t _ hstep1, ?_⟩
      rw [hd]
      exact List.mem_append.mpr (Or.inl hstepm)
    · exact ih (checkStep m loc acc q) (storeEqMod_checkStep m loc s0 acc q hmod)
        p hp2 hw hr

/-- C1 counterexample: finishing a resource with an unhandled required rule under location pattern "Patient.code" emits a defect that names the resource but mentions the location pattern in none of its fields. -/
theorem c1_stale_defect_counterexample :
    (finishSelectedId (selectResourceId c3Store (some "p1") "f.xml" [])).1 ≠ [] ∧
    (∀ i ∈ (finishSelectedId (selectResourceId c3Store (some "p1") "f.xml" [])).1,
      mentions i "Patient.code" = false ∧ i.expression = some "p1") := by decide

/-- C1 amended: finishing a resource appends one synthetic fatal defect per active rule with requireOccurrence true and handled false; each such defect carries the fixed message and names only the resource (its expression is the resource id; the location pattern is not included), and no defect is emitted when every active required rule was handled — in particular rules with requireOccurrence false emit nothing. -/
theorem c1_stale_defect_amended (st : IIState) :
    ∃ defects, (finishSelectedId st).1 = st.issues ++ defects ∧
      (finishSelectedId st).2.issues = st.issues ++ defects ∧
      (∀ i ∈ defects, i = staleIssue st.resource_id) ∧
      (staleIssue st.resource_id).severity = "fatal" ∧
      (staleIssue st.resource_id).expression = st.resource_id ∧
      (defects = [] ↔ ∀ p ∈ st.active, ∀ r ∈ getRules st.store p.2 p.1,
        r.require_occurence = true → r.handled = true) := by
  refine ⟨_, rfl, rfl, ?_, rfl, rfl, ?_⟩
  · intro i hi
    rcases List.mem_flatMap.mp hi with ⟨p, hp, hip⟩
    rcases List.mem_filterMap.mp hip with ⟨r, hr, hro⟩
    by_cases hcond : r.handled = false ∧ r.require_occurence = true
    · rw [if_pos hcond] at hro
      exact (Option.some.inj hro).symm
    · rw [if_neg hcond] at hro
      cases hro
  · rw [List.flatMap_eq_nil_iff]
    constructor
    · intro h p hp r hr hreq
      have := (List.filterMap_eq_nil_iff.mp (h p hp)) r hr
      by_cases hh : r.handled = true
      · exact hh
      · exfalso
        rw [if_pos ⟨Bool.eq_false_iff.mpr hh, hreq⟩] at this
        cases this
    · intro h p hp
      refine List.filterMap_eq_nil_iff.mpr ?_
      intro r hr
      by_cases hcond : r.handled = false ∧ r.require_occurence = true
      · exfalso
        have := h p hp r hr hcond.2
        rw [this] at hcond
        cases hcond.1
      · rw [if_neg hcond]

theorem finishSelectedId_fst_ext (st : IIState) :
    ∃ d, (finishSelectedId st).1 = st.issues ++ d := ⟨_, rfl⟩

/-- C2: when an issue matches a rule (location pattern matches the expression and the message prefix matches) whose record has no reason, the issue is still suppressed (the kept list is unchanged), a synthetic fatal defect reporting the missing justification is appended to the outcome issue stream, and the run fails for every fail threshold. -/
theorem c2_unjustified_suppression (st : RIState) (line col severity text expression : String)
    (flevel : Nat)
    (hsev : (issue_levels.lookup severity).isSome = true)
    (p : String × String) (hp : p ∈ st.ii.active)
    (hw : wildcardMatch p.1 expression = true)
    (r : Rule) (hr : r ∈ getRules st.ii.store p.2 p.1)
    (hmsg : ruleMatchesMsg text r = true) (hnone : r.reason = none) :
    ∃ st2, addIssue st line col severity text expression = some st2 ∧
      st2.kept = st.kept ∧
      unjustIssue expression ∈ st2.ii.issues ∧
      unjustIssue expression ∈ (ResourceIssues.finish st2).kept ∧
      runFailed (ResourceIssues.finish st2).kept flevel = true := by
  have hhit := checkFold_hit text expression st.ii.store st.ii.active
    (false, st.ii) (storeEqMod_refl _) p hp hw ⟨r, hr, hmsg, hnone⟩
  refine ⟨⟨(hasForExpression st.ii text expression).2, st.kept⟩, ?_, rfl, hhit.2, ?_, ?_⟩
  · unfold addIssue
    rw [if_pos hsev]
    have e1 : (hasForExpression st.ii text expression).1 = true := hhit.1
    rw [if_pos e1]
  · unfold ResourceIssues.finish
    dsimp only
    rcases finishSelectedId_fst_ext (hasForExpression st.ii text expression).2
      with ⟨d, hd⟩
    rw [hd]
    exact List.mem_append.mpr (Or.inr (List.mem_append.mpr (Or.inl hhit.2)))
  · unfold runFailed
    refine List.any_eq_true.mpr ⟨unjustIssue expression, ?_, ?_⟩
    · unfold ResourceIssues.finish
      dsimp only
      rcases finishSelectedId_fst_ext (hasForExpression st.ii text expression).2
        with ⟨d, hd⟩
      rw [hd]
      exact List.mem_append.mpr (Or.inr (List.mem_append.mpr (Or.inl hhit.2)))
    · have h0 : ((issue_levels.lookup (unjustIssue expression).severity).getD 0) = 0 :=
        rfl
      rw [h0]
      simp

/-- Witness for C2 at a concrete store and issue. -/
theorem c2_unjustified_suppression_witness :
    (issue_levels.lookup "error").isSome = true ∧
    ("Patient.code", "p1") ∈
      (selectResourceId c2Store (some "p1") "f.xml" []).active ∧
    wildcardMatch "Patient.code" "Patient.code" = true ∧
    (⟨some "Invalid code", none, false, true⟩ : Rule) ∈
      getRules (selectResourceId c2Store (some "p1") "f.xml" []).store "p1" "Patient.code" ∧
    ruleMatchesMsg "Invalid code X" ⟨some "Invalid code", none, false, true⟩ = true ∧
    (∃ st2, addIssue ⟨selectResourceId c2Store (some "p1") "f.xml" [], []⟩
        "10" "5" "error" "Invalid code X" "Patient.code" = some st2 ∧
      st2.kept = [] ∧
      unjustIssue "Patient.code" ∈ st2.ii.issues ∧
      unjustIssue "Patient.code" ∈ (ResourceIssues.finish st2).kept ∧
      runFailed (ResourceIssues.finish st2).kept 1 = true) :=
  ⟨by decide, by decide, by decide, by decide, by decide,
   c2_unjustified_suppression ⟨selectResourceId c2Store (some "p1") "f.xml" [], []⟩
     "10" "5" "error" "Invalid code X" "Patient.code" 1 (by decide)
     ("Patient.code", "p1") (by decide) (by decide)
     ⟨some "Invalid code", none, false, true⟩ (by decide) (by decide) rfl⟩

/-- C3 counterexample: a rule activated for two successive outcomes (matched by resource id "p1" in the first and by file path "p1" in the second) that fires in the first outcome counts as handled in the second, whose finish emits no stale-suppression defect, although from a fresh table the second outcome would emit one. -/
theorem c3_handled_leak_counterexample :
    (addIssue ⟨selectResourceId c3Store (some "p1") "fileA.xml" [], []⟩
        "10" "5" "error" "Invalid code X" "Patient.code").map
        (fun st2 => (st2.kept,
          (finishSelectedId st2.ii).1,
          (finishSelectedId (selectResourceId st2.ii.store none "p1" [])).1)) =
      some ([], [], []) ∧
    (finishSelectedId (selectResourceId c3Store none "p1" [])).1 =
      [staleIssue none] := by decide

/-- C3 amended: handled state lives on the shared global rule table for the whole run: selecting a new resource does not reset it, and a resource all of whose active rules are already handled (possibly by earlier outcomes) finishes without any stale-suppression defect. -/
theorem c3_handled_scope_amended (store : Store) (rid : Option String) (fp : String)
    (spans : List ElementId)
    (h : ∀ p ∈ (selectResourceId store rid fp spans).active,
      ∀ r ∈ getRules store p.2 p.1, r.handled = true) :
    (selectResourceId store rid fp spans).store = store ∧
    (selectResourceId store rid fp spans).issues = [] ∧
    (finishSelectedId (selectResourceId store rid fp spans)).1 = [] := by
  have hsel : (selectResourceId store rid fp spans).store = store := rfl
  have hiss : (selectResourceId store rid fp spans).issues = [] := rfl
  refine ⟨hsel, hiss, ?_⟩
  unfold finishSelectedId
  dsimp only
  rw [hiss, hsel]
  rw [List.nil_append]
  rw [List.flatMap_eq_nil_iff]
  intro p hp
  refine List.filterMap_eq_nil_iff.mpr ?_
  intro r hr
  have hh := h p hp r hr
  rw [if_neg]
  rintro ⟨h1, _⟩
  rw [hh] at h1
  cases h1

theorem lookup_map_replace {β : Type} (t : List (String × β)) (k k' : String)
    (v : β) (h : ¬ k' = k) :
    (t.map (fun e => if e.1 = k then (k, v) else e)).lookup k' = t.lookup k' := by
  induction t with
  | nil => rfl
  | cons e t ih =>
    simp only [List.map_cons]
    by_cases he : e.1 = k
    · have hhead : (if e.1 = k then (k, v) else e) = (k, v) := if_pos he
      have hk : (k' == k) = false := by simp [h]
      have hk2 : (k' == e.1) = false := by simp [he ▸ h]
      rw [hhead]
      simp only [List.lookup, hk, hk2, ih]
    · have hhead : (if e.1 = k then (k, v) else e) = e := if_neg he
      rw [hhead]
      by_cases hk : k' = e.1
      · have hb : (k' == e.1) = true := by simp [hk]
        simp only [List.lookup, hb]
      · have hb : (k' == e.1) = false := by simp [hk]
        simp only [List.lookup, hb, ih]

theorem lookup_map_replace_found {β : Type} (t : List (String × β)) (k : String)
    (v : β) (h : t.any (fun e => e.1 = k) = true) :
    (t.map (fun e => if e.1 = k then (k, v) else e)).lookup k = some v := by
  induction t with
  | nil => simp at h
  | cons e t ih =>
    simp only [List.map_cons]
    by_cases he : e.1 = k
    · have hhead : (if e.1 = k then (k, v) else e) = (k, v) := if_pos he
      rw [hhead]
      simp [List.lookup]
    · have hhead : (if e.1 = k then (k, v) else e) = e := if_neg he
      rw [hhead]
      have h2 : t.any (fun e => e.1 = k) = true := by
        rcases List.any_eq_true.mp h with ⟨x, hx, hxk⟩
        rcases List.mem_cons.mp hx with rfl | hx2
        · exact absurd (by simpa using hxk) he
        · exact List.any_eq_true.mpr ⟨x, hx2, hxk⟩
      have hne : ¬ k = e.1 := fun hc => he hc.symm
      have hk2 : (k == e.1) = false := by simp [hne]
      simp only [List.lookup, hk2, ih h2]

theorem lookup_append_assoc {β : Type} (l1 l2 : List (String × β)) (k : String) :
    (l1 ++ l2).lookup k =
      match l1.lookup k with
      | some v => some v
      | none => l2.lookup k := by
  induction l1 with
  | nil => rfl
  | cons e t ih =>
    by_cases hk : k = e.1
    · have hb : (k == e.1) = true := by simp [hk]
      simp only [List.cons_append, List.lookup, hb]
    · have hb : (k == e.1) = false := by simp [hk]
      simp only [List.cons_append, List.lookup, hb]
      exact ih

theorem lookup_none_of_not_any {β : Type} (l : List (String × β)) (k : String)
    (h : l.any (fun e => e.1 = k) = false) : l.lookup k = none := by
  induction l with
  | nil => rfl
  | cons e t ih =>
    simp only [List.any_cons, Bool.or_eq_false_iff] at h
    have hne : ¬ e.1 = k := by
      have := h.1
      simpa only [decide_eq_false_iff_not] using this
    have hk2 : (k == e.1) = false := by
      have hne2 : ¬ k = e.1 := fun hc => hne hc.symm
      simp [hne2]
    simp only [List.lookup, hk2, ih h.2]

theorem lookup_setA {β : Type} (l : List (String × β)) (k k' : String) (v : β) :
    (setA l k v).lookup k' = if k' = k then some v else l.lookup k' := by
  unfold setA
  by_cases hany : l.any (fun e => e.1 = k) = true
  · rw [if_pos hany]
    by_cases hk : k' = k
    · subst hk
      rw [if_pos rfl]
      exact lookup_map_replace_found l k' v hany
    · rw [if_neg hk]
      exact lookup_map_replace l k k' v hk
  · rw [if_neg hany]
    rw [lookup_append_assoc]
    by_cases hk : k' = k
    · subst hk
      rw [lookup_none_of_not_any l k' (Bool.eq_false_iff.mpr hany), if_pos rfl]
      simp only [List.lookup, beq_self_eq_true]
    · rw [if_neg hk]
      have hk2 : (k' == k) = false := by simp [hk]
      rcases hl : l.lookup k' with _ | w
      · simp [List.lookup, hk2]
      · rfl

theorem lookup_mergePaths (req : Bool) (paths : List (String × List RawRule)) :
    ∀ (ifr : List (String × List Rule)) (loc : String),
    ((mergePaths ifr req paths).lookup loc).getD [] =
      ((ifr.lookup loc).getD []) ++ pathRules req paths loc := by
  induction paths with
  | nil => intro ifr loc; simp [mergePaths, pathRules]
  | cons p t ih =>
    intro ifr loc
    have hstep : mergePaths ifr req (p :: t) =
        mergePaths (setA ifr p.1 (((ifr.lookup p.1).getD []) ++ p.2.map (mkRule req)))
          req t := rfl
    rw [hstep, ih]
    rw [lookup_setA]
    by_cases hl : loc = p.1
    · rw [if_pos hl]
      have : pathRules req (p :: t) loc =
          p.2.map (mkRule req) ++ pathRules req t loc := by
        unfold pathRules
        rw [List.flatMap_cons, if_pos hl.symm]
      rw [this, hl]
      simp [List.append_assoc]
    · rw [if_neg hl]
      have : pathRules req (p :: t) loc = pathRules req t loc := by
        unfold pathRules
        rw [List.flatMap_cons, if_neg (fun hc => hl hc.symm)]
        simp
      rw [this]

theorem loadRes_fold (req : Bool)
    (rs : List (String × Option (List (String × List RawRule)))) :
    ∀ (store s' : Store), rs.foldlM (loadRes req) store = some s' →
    ∀ res loc, getRules s' res loc = getRules store res loc ++ resRules req rs res loc := by
  induction rs with
  | nil =>
    intro store s' h res loc
    have : store = s' := by simpa [List.foldlM] using h
    subst this
    simp [resRules]
  | cons e t ih =>
    intro store s' h res loc
    obtain ⟨e1, e2⟩ := e
    rw [List.foldlM_cons] at h
    rcases e2 with _ | paths
    · have h2 : t.foldlM (loadRes req) store = some s' := h
      rw [ih store s' h2 res loc]
      have hskip : resRules req ((e1, none) :: t) res loc = resRules req t res loc := by
        unfold resRules
        rw [List.flatMap_cons]
        split <;> simp
      rw [hskip]
    · by_cases hg : req = true ∧ (e1.data.contains '*') = true
      · exfalso
        have hnone : loadRes req store (e1, some paths) = none := by
          unfold loadRes
          exact if_pos hg
        rw [hnone] at h
        cases h
      · have hstep : loadRes req store (e1, some paths) =
            some (setA store e1 (mergePaths ((store.lookup e1).getD []) req paths)) := by
          unfold loadRes
          exact if_neg hg
        rw [hstep] at h
        have h2 : t.foldlM (loadRes req)
            (setA store e1 (mergePaths ((store.lookup e1).getD []) req paths)) =
            some s' := h
        rw [ih _ s' h2 res loc]
        have hres : resRules req ((e1, some paths) :: t) res loc =
            (if e1 = res then pathRules req paths loc else []) ++
              resRules req t res loc := by
          unfold resRules
          rw [List.flatMap_cons]
        rw [hres]
        have hkey : getRules
            (setA store e1 (mergePaths ((store.lookup e1).getD []) req paths)) res loc =
            getRules store res loc ++ (if e1 = res then pathRules req paths loc else []) := by
          unfold getRules
          rw [lookup_setA]
          by_cases hr : res = e1
          · subst hr
            rw [if_pos rfl, if_pos rfl, Option.getD_some]
            exact lookup_mergePaths req paths ((store.lookup res).getD []) loc
          · rw [if_neg hr, if_neg (fun hc => hr hc.symm)]
            simp
        rw [hkey, List.append_assoc]

theorem loadDoc_getRules (d : YamlDoc) (store s' : Store)
    (h : loadDoc store d = some s') (res loc : String) :
    getRules s' res loc = getRules store res loc ++ docRules d res loc :=
  loadRes_fold d.require d.resources store s' h res loc

/-- C9: loading two rule documents merges them additively: under every resource pattern and location pattern, the rules contributed by the second document are appended after those of the first, which are appended after any pre-existing rules; nothing is replaced. -/
theorem c9_additive_merge (store s1 s2 : Store) (d1 d2 : YamlDoc) (res loc : String)
    (h1 : loadDoc store d1 = some s1) (h2 : loadDoc s1 d2 = some s2) :
    getRules s2 res loc =
      getRules store res loc ++ docRules d1 res loc ++ docRules d2 res loc := by
  rw [loadDoc_getRules d2 s1 s2 h2 res loc, loadDoc_getRules d1 store s1 h1 res loc]

/-- Witness for C9 at two concrete documents sharing their resource and location keys. -/
theorem c9_additive_merge_witness :
    loadDoc [] c9d1 = some c9s1 ∧
    loadDoc c9s1 c9d2 = some c9s2 ∧
    getRules c9s2 "p1" "Patient.code" =
      getRules ([] : Store) "p1" "Patient.code" ++
        docRules c9d1 "p1" "Patient.code" ++ docRules c9d2 "p1" "Patient.code" :=
  ⟨by decide, by decide,
   c9_additive_merge [] c9s1 c9s2 c9d1 c9d2 "p1" "Patient.code" (by decide) (by decide)⟩

/-- C7 counterexample: an issue with an empty locationExpression is suppressed by the path match against the location pattern star (the code attempts the path match unconditionally), whereas the order described by the claim, which skips the path match for empty expressions, would keep the issue. -/
theorem c7_order_counterexample :
    (addIssue ⟨selectResourceId c7Store (some "p1") "f.xml" [], []⟩
        "?" "?" "error" "M text" "").map (fun st2 => st2.kept) = some [] ∧
    (addIssue_specOrder ⟨selectResourceId c7Store (some "p1") "f.xml" [], []⟩
        "?" "?" "error" "M text" "").map (fun st2 => st2.kept) =
      some [⟨"?", "?", "error", "M text", some ""⟩] := by decide

/-- C7 amended: per-issue reconciliation tests the structural path first and the element id second, but the path match is attempted unconditionally — an empty locationExpression is tested like any other and can match a pattern that accepts the empty string — and id-based matching happens only when the issue was not already suppressed by the path match. -/
theorem c7_order_amended (st : RIState) (line col severity text expression : String)
    (ii1 : IIState)
    (hsev : (issue_levels.lookup severity).isSome = true) :
    (hasForExpression st.ii text "" = (true, ii1) →
      addIssue st line col severity text "" = some ⟨ii1, st.kept⟩) ∧
    (hasForExpression st.ii text expression = (false, ii1) →
      addIssue st line col severity text expression =
        (if (hasForId ii1 text line col).1 = true then
           some ⟨(hasForId ii1 text line col).2, st.kept⟩
         else some ⟨(hasForId ii1 text line col).2,
                    st.kept ++ [⟨line, col, severity, text, some expression⟩]⟩)) := by
  constructor
  · intro h
    unfold addIssue
    rw [if_pos hsev, h]
    rfl
  · intro h
    unfold addIssue
    rw [if_pos hsev, h]
    rfl

/-- Witness for C7 amended at a concrete store. -/
theorem c7_order_amended_witness :
    (issue_levels.lookup "error").isSome = true ∧
    hasForExpression (selectResourceId c7Store (some "p1") "f.xml" []) "M text" "" =
      (true, c7AfterII) ∧
    ((hasForExpression (selectResourceId c7Store (some "p1") "f.xml" []) "M text" "" =
        (true, c7AfterII) →
      addIssue ⟨selectResourceId c7Store (some "p1") "f.xml" [], []⟩
        "?" "?" "error" "M text" "" = some ⟨c7AfterII, []⟩) ∧
    (hasForExpression (selectResourceId c7Store (some "p1") "f.xml" []) "M text" "Other.path" =
        (false, c7AfterII) →
      addIssue ⟨selectResourceId c7Store (some "p1") "f.xml" [], []⟩
        "?" "?" "error" "M text" "Other.path" =
        (if (hasForId c7AfterII "M text" "?" "?").1 = true then
           some ⟨(hasForId c7AfterII "M text" "?" "?").2, []⟩
         else some ⟨(hasForId c7AfterII "M text" "?" "?").2,
                    [] ++ [⟨"?", "?", "error", "M text", some "Other.path"⟩]⟩))) :=
  ⟨by decide, by decide,
   c7_order_amended ⟨selectResourceId c7Store (some "p1") "f.xml" [], []⟩
     "?" "?" "error" "M text" "Other.path" c7AfterII (by decide)⟩

set_option maxHeartbeats 4000000 in
theorem parseRegexAux_plainChar (pending : Option CAtom) (c : Char) (r : List Char)
    (h1 : c ≠ '*') (h2 : c ≠ '+') (h3 : c ≠ '?') (h4 : c ≠ '^') (h5 : c ≠ '$')
    (h6 : c ≠ '\\') (h7 : c ≠ '.') :
    parseRegexAux pending (c :: r) =
      if unsupportedMeta c then none
      else (parseRegexAux (some (CAtom.lit c)) r).map (fun l => flushP pending ++ l) := by
  rw [parseRegexAux.eq_def]
  split <;> simp_all

theorem parseAux_plain (t : List Char)
    (h : ∀ c ∈ t, c ∉ (['\\', '^', '$', '(', ')', '{', '}', '|', '+', '?'] : List Char)) :
    ∀ pending : Option CAtom,
    parseRegexAux pending (t.flatMap escWildcardChar ++ ['$']) =
      some (flushP pending ++ (t.map wildAtom ++ [Atom.eol])) := by
  induction t with
  | nil => intro pending; rfl
  | cons c t2 ih =>
    have hc := h c (List.mem_cons_self _ _)
    have ht2 : ∀ x ∈ t2,
        x ∉ (['\\', '^', '$', '(', ')', '{', '}', '|', '+', '?'] : List Char) :=
      fun x hx => h x (List.mem_cons_of_mem _ hx)
    simp only [List.mem_cons, not_or] at hc
    obtain ⟨hbs, hh, hd, hp1, hp2, hbar, hb1, hb2, hplus, hq, -⟩ := hc
    intro pending
    rw [List.flatMap_cons, List.append_assoc]
    by_cases h1 : c = '*'
    · subst h1
      have e1 : parseRegexAux pending
          ('.' :: '*' :: '?' :: (t2.flatMap escWildcardChar ++ ['$'])) =
          ((parseRegexAux none (t2.flatMap escWildcardChar ++ ['$'])).map
            (Atom.star CAtom.anyNoNL :: ·)).map (fun l => flushP pending ++ l) := rfl
      rw [show escWildcardChar '*' = ['.', '*', '?'] from rfl]
      rw [show ('.' :: '*' :: '?' :: ([] : List Char)) ++ (t2.flatMap escWildcardChar ++ ['$']) =
          '.' :: '*' :: '?' :: (t2.flatMap escWildcardChar ++ ['$']) from rfl]
      rw [e1, ih ht2 none]
      simp [wildAtom, flushP]
    · by_cases h2 : c = '.'
      · subst h2
        have e2 : parseRegexAux pending
            ('\\' :: '.' :: (t2.flatMap escWildcardChar ++ ['$'])) =
            (parseRegexAux (some (CAtom.lit '.')) (t2.flatMap escWildcardChar ++ ['$'])).map
              (fun l => flushP pending ++ l) := rfl
        rw [show escWildcardChar '.' = ['\\', '.'] from rfl]
        rw [show ('\\' :: '.' :: ([] : List Char)) ++ (t2.flatMap escWildcardChar ++ ['$']) =
            '\\' :: '.' :: (t2.flatMap escWildcardChar ++ ['$']) from rfl]
        rw [e2, ih ht2 (some (CAtom.lit '.'))]
        simp [wildAtom, flushP]
      · by_cases h3 : c = '['
        · subst h3
          have e3 : parseRegexAux pending
              ('\\' :: '[' :: (t2.flatMap escWildcardChar ++ ['$'])) =
              (parseRegexAux (some (CAtom.lit '[')) (t2.flatMap escWildcardChar ++ ['$'])).map
                (fun l => flushP pending ++ l) := rfl
          rw [show escWildcardChar '[' = ['\\', '['] from rfl]
          rw [show ('\\' :: '[' :: ([] : List Char)) ++ (t2.flatMap escWildcardChar ++ ['$']) =
              '\\' :: '[' :: (t2.flatMap escWildcardChar ++ ['$']) from rfl]
          rw [e3, ih ht2 (some (CAtom.lit '['))]
          simp [wildAtom, flushP]
        · by_cases h4 : c = ']'
          · subst h4
            have e4 : parseRegexAux pending
                ('\\' :: ']' :: (t2.flatMap escWildcardChar ++ ['$'])) =
                (parseRegexAux (some (CAtom.lit ']')) (t2.flatMap escWildcardChar ++ ['$'])).map
                  (fun l => flushP pending ++ l) := rfl
            rw [show escWildcardChar ']' = ['\\', ']'] from rfl]
            rw [show ('\\' :: ']' :: ([] : List Char)) ++ (t2.flatMap escWildcardChar ++ ['$']) =
                '\\' :: ']' :: (t2.flatMap escWildcardChar ++ ['$']) from rfl]
            rw [e4, ih ht2 (some (CAtom.lit ']'))]
            simp [wildAtom, flushP]
          · have hesc : escWildcardChar c = [c] := by
              unfold escWildcardChar
              rw [if_neg h2, if_neg h1, if_neg h3, if_neg h4]
            rw [hesc]
            rw [show ([c] : List Char) ++ (t2.flatMap escWildcardChar ++ ['$']) =
                c :: (t2.flatMap escWildcardChar ++ ['$']) from rfl]
            have hm : unsupportedMeta c = false := by
              unfold unsupportedMeta
              simp [h1, h3, h4, hplus, hq, hp1, hp2, hbar, hb1, hb2]
            rw [parseRegexAux_plainChar pending c _ h1 hplus hq hh hd hbs h2, hm]
            rw [if_neg (by simp)]
            rw [ih ht2 (some (CAtom.lit c))]
            have hw : wildAtom c = Atom.one (CAtom.lit c) := by
              unfold wildAtom
              rw [if_neg h1]
            simp [hw, flushP]

theorem mtch_eol (s : List Char) (prev : Option Char) :
    mtch [Atom.eol] prev s = plainWildMatch [] s := by
  cases s with
  | nil => rfl
  | cons d s2 =>
    have e : mtch [Atom.eol] prev (d :: s2) =
        (if (d :: s2 : List Char) = [] ∨ (d :: s2 : List Char).head? = some '\n'
         then true else false) := rfl
    by_cases hd : d = '\n'
    · subst hd
      rw [e, if_pos (show ('\n' :: s2 : List Char) = [] ∨
          ('\n' :: s2 : List Char).head? = some '\n' from Or.inr rfl)]
      rfl
    · rw [e, if_neg]
      · have h2 : (d == '\n') = false := by simp [hd]
        rw [show plainWildMatch [] (d :: s2) = (d == '\n') from rfl, h2]
      · rintro (h2 | h2)
        · cases h2
        · exact hd (by injection h2)

theorem mtch_plain (t : List Char) :
    ∀ (s : List Char) (prev : Option Char),
    mtch (t.map wildAtom ++ [Atom.eol]) prev s = plainWildMatch t s := by
  induction t with
  | nil => intro s prev; exact mtch_eol s prev
  | cons c t2 ih =>
    intro s prev
    by_cases hc : c = '*'
    · subst hc
      have hmap : (('*' :: t2).map wildAtom ++ [Atom.eol]) =
          Atom.star CAtom.anyNoNL :: (t2.map wildAtom ++ [Atom.eol]) := by
        simp [wildAtom]
      rw [hmap]
      have hpw : plainWildMatch ('*' :: t2) s =
          plainStarRun (plainWildMatch t2) s := by
        rw [show plainWildMatch ('*' :: t2) s =
            (if ('*' : Char) = '*' then plainStarRun (plainWildMatch t2) s
             else match s with
               | [] => false
               | d :: s2 => if d = '*' then plainWildMatch t2 s2 else false) from rfl]
        rw [if_pos rfl]
      rw [hpw]
      clear hpw
      induction s generalizing prev with
      | nil => exact ih [] prev
      | cons d s2 ihs =>
        rw [show mtch (Atom.star CAtom.anyNoNL :: (t2.map wildAtom ++ [Atom.eol]))
              prev (d :: s2) =
            starMtch (mtch (t2.map wildAtom ++ [Atom.eol])) CAtom.anyNoNL prev (d :: s2)
            from rfl]
        rw [show starMtch (mtch (t2.map wildAtom ++ [Atom.eol])) CAtom.anyNoNL prev (d :: s2) =
            (mtch (t2.map wildAtom ++ [Atom.eol]) prev (d :: s2) ||
              (if d = '\n' then false
               else starMtch (mtch (t2.map wildAtom ++ [Atom.eol])) CAtom.anyNoNL (some d) s2))
            from rfl]
        rw [show plainStarRun (plainWildMatch t2) (d :: s2) =
            (plainWildMatch t2 (d :: s2) ||
              (if d = '\n' then false else plainStarRun (plainWildMatch t2) s2)) from rfl]
        rw [ih (d :: s2) prev]
        by_cases hd : d = '\n'
        · rw [if_pos hd, if_pos hd]
        · rw [if_neg hd, if_neg hd]
          have hs := ihs (some d)
          rw [show mtch (Atom.star CAtom.anyNoNL :: (t2.map wildAtom ++ [Atom.eol]))
                (some d) s2 =
              starMtch (mtch (t2.map wildAtom ++ [Atom.eol])) CAtom.anyNoNL (some d) s2
              from rfl] at hs
          rw [hs]
    · have hmap : ((c :: t2).map wildAtom ++ [Atom.eol]) =
          Atom.one (CAtom.lit c) :: (t2.map wildAtom ++ [Atom.eol]) := by
        simp [wildAtom, hc]
      rw [hmap]
      cases s with
      | nil =>
        rw [show plainWildMatch (c :: t2) [] =
            (if c = '*' then plainStarRun (plainWildMatch t2) [] else false) from rfl,
          if_neg hc]
        rfl
      | cons d s2 =>
        have hpw : plainWildMatch (c :: t2) (d :: s2) =
            (if d = c then plainWildMatch t2 s2 else false) := by
          rw [show plainWildMatch (c :: t2) (d :: s2) =
              (if c = '*' then plainStarRun (plainWildMatch t2) (d :: s2)
               else if d = c then plainWildMatch t2 s2 else false) from rfl,
            if_neg hc]
        rw [hpw]
        have e1 : mtch (Atom.one (CAtom.lit c) :: (t2.map wildAtom ++ [Atom.eol]))
              prev (d :: s2) =
            (match (if d = c then some (d, s2) else none : Option (Char × List Char)) with
             | some (d2, s3) => mtch (t2.map wildAtom ++ [Atom.eol]) (some d2) s3
             | none => false) := rfl
        rw [e1]
        by_cases hdc : d = c
        · rw [if_pos hdc, if_pos hdc]
          exact ih s2 (some d)
        · rw [if_neg hdc, if_neg hdc]

theorem plainWild_star_total (s : List Char) : plainWildMatch ['*'] s = true := by
  rw [show plainWildMatch ['*'] s =
      (if ('*' : Char) = '*' then plainStarRun (plainWildMatch []) s
       else match s with
         | [] => false
         | d :: s2 => if d = '*' then plainWildMatch [] s2 else false) from rfl,
    if_pos rfl]
  induction s with
  | nil => rfl
  | cons d s2 ih =>
    rw [show plainStarRun (plainWildMatch []) (d :: s2) =
        (plainWildMatch [] (d :: s2) ||
          (if d = '\n' then false else plainStarRun (plainWildMatch []) s2)) from rfl]
    by_cases hd : d = '\n'
    · subst hd
      rw [show plainWildMatch [] ('\n' :: s2) = (('\n' : Char) == '\n') from rfl]
      simp
    · rw [if_neg hd, ih]
      simp

/-- C6 amended: on patterns built from ordinary characters and star, the compiled matcher is anchored at the start, star matches any run of characters not containing a newline, other characters match themselves, and the end of the pattern must coincide with the end of the candidate or fall just before a newline (the compiled regex uses the multiline end-of-line anchor); "Patient/*" matches "Patient/123" and "Patient/" but not "Observation/123", and "*" matches every candidate. -/
theorem c6_wildcard_amended (p cand : String)
    (h : ∀ c ∈ p.data,
      c ∉ (['\\', '^', '$', '(', ')', '{', '}', '|', '+', '?'] : List Char)) :
    wildcardMatch p cand = plainWildMatch p.data cand.data ∧
    wildcardMatch "Patient/*" "Patient/123" = true ∧
    wildcardMatch "Patient/*" "Patient/" = true ∧
    wildcardMatch "Patient/*" "Observation/123" = false ∧
    (∀ cand2 : String, wildcardMatch "*" cand2 = true) := by
  refine ⟨?_, by decide, by decide, by decide, ?_⟩
  · unfold wildcardMatch compileWildcard wildcardToRegex parseRegex
    rw [show parseRegexAux none ('^' :: (p.data.flatMap escWildcardChar ++ ['$'])) =
        (parseRegexAux none (p.data.flatMap escWildcardChar ++ ['$'])).map
          (fun l => flushP none ++ Atom.bol :: l) from rfl]
    rw [parseAux_plain p.data h none]
    simp only [Option.map_some', flushP, List.nil_append]
    rw [show mtch (Atom.bol :: (p.data.map wildAtom ++ [Atom.eol])) none cand.data =
        (if (none : Option Char) = none ∨ (none : Option Char) = some '\n'
         then mtch (p.data.map wildAtom ++ [Atom.eol]) none cand.data else false)
        from rfl]
    rw [if_pos (Or.inl rfl)]
    exact mtch_plain p.data cand.data none
  · intro cand2
    have h2 : ∀ c ∈ ("*" : String).data,
        c ∉ (['\\', '^', '$', '(', ')', '{', '}', '|', '+', '?'] : List Char) := by
      decide
    have hm : wildcardMatch "*" cand2 = plainWildMatch "*".data cand2.data := by
      unfold wildcardMatch compileWildcard wildcardToRegex parseRegex
      rw [show parseRegexAux none ('^' :: (("*" : String).data.flatMap escWildcardChar ++ ['$'])) =
          (parseRegexAux none (("*" : String).data.flatMap escWildcardChar ++ ['$'])).map
            (fun l => flushP none ++ Atom.bol :: l) from rfl]
      rw [parseAux_plain ("*" : String).data h2 none]
      simp only [Option.map_some', flushP, List.nil_append]
      rw [show mtch (Atom.bol :: ((['*'] : List Char).map wildAtom ++ [Atom.eol])) none cand2.data =
          (if (none : Option Char) = none ∨ (none : Option Char) = some '\n'
           then mtch ((['*'] : List Char).map wildAtom ++ [Atom.eol]) none cand2.data else false)
          from rfl]
      rw [if_pos (Or.inl rfl)]
      exact mtch_plain (['*'] : List Char) cand2.data none
    rw [hm]
    exact plainWild_star_total cand2.data

/-- C6 counterexample: the matcher the claim describes and the code diverge on concrete inputs: in the code "a*b" does not match the two-line candidate "a", newline, "b" because star cannot cross a newline; "a" does match that candidate because the multiline end anchor stops before the newline, so matching is not anchored to the full string; and "a+" matches "aa" because the plus keeps its regex meaning instead of being literal. -/
theorem c6_wildcard_counterexample :
    specWildcardMatch "a*b" "a\nb" = true ∧ wildcardMatch "a*b" "a\nb" = false ∧
    specWildcardMatch "a" "a\nb" = false ∧ wildcardMatch "a" "a\nb" = true ∧
    specWildcardMatch "a+" "aa" = false ∧ wildcardMatch "a+" "aa" = true := by decide

/-- Witness for C6 amended at the pattern "Patient/*". -/
theorem c6_wildcard_amended_witness :
    (∀ c ∈ ("Patient/*" : String).data,
      c ∉ (['\\', '^', '$', '(', ')', '{', '}', '|', '+', '?'] : List Char)) ∧
    (wildcardMatch "Patient/*" "Patient/123" =
        plainWildMatch ("Patient/*" : String).data ("Patient/123" : String).data ∧
      wildcardMatch "Patient/*" "Patient/123" = true ∧
      wildcardMatch "Patient/*" "Patient/" = true ∧
      wildcardMatch "Patient/*" "Observation/123" = false ∧
      (∀ cand2 : String, wildcardMatch "*" cand2 = true)) :=
  ⟨by decide, c6_wildcard_amended "Patient/*" "Patient/123" (by decide)⟩

/-- Witness for C3 amended at a concrete all-handled table. -/
theorem c3_handled_scope_amended_witness :
    (∀ p ∈ (selectResourceId c3HandledStore (some "p1") "f.xml" []).active,
      ∀ r ∈ getRules c3HandledStore p.2 p.1, r.handled = true) ∧
    ((selectResourceId c3HandledStore (some "p1") "f.xml" []).store = c3HandledStore ∧
     (selectResourceId c3HandledStore (some "p1") "f.xml" []).issues = [] ∧
     (finishSelectedId (selectResourceId c3HandledStore (some "p1") "f.xml" [])).1 = []) :=
  ⟨by decide, c3_handled_scope_amended c3HandledStore (some "p1") "f.xml" [] (by decide)⟩

/-- Witness for C8 amended at the claimed configuration. -/
theorem c8_threshold_amended_witness :
    "error" ∈ thresholdChoices ∧ "warning" ∈ thresholdChoices ∧
    ((thresholdsRejected "error" "warning" = true ↔
      ∃ s ∈ issue_levels.map Prod.fst,
        levelOf s ≤ levelOf "error" ∧ levelOf "warning" < levelOf s) ∧
     thresholdsRejected "warning" "error" = true ∧
     thresholdsRejected "error" "warning" = false) :=
  ⟨by decide, by decide, c8_threshold_amended "error" "warning" (by decide) (by decide)⟩
